import Mathlib

/-!
Verification development for the keygen keyboard-layout optimizer
(src/layout.rs and src/main.rs).  The Rust code is shallowly embedded:
a `Layer` (Rust `Layer(KeyMap([char; 30]))`) is a function `Fin 30 → Char`,
a `Layout` is a pair of layers, the position map array `[Option<KeyPress>; 128]`
is a function `Fin 128 → Option KeyPress`, and the permutation iterator's
mutable state is passed explicitly.  Fallible array accesses (which panic in
Rust) are modelled with `Option`: `none` marks a panic.
-/

set_option maxRecDepth 10000

/- ===== Types (src/layout.rs lines 18-80) ===== -/

/-- Rust `enum Finger`. -/
inductive Finger
  | Index
  | Middle
  | Ring
  | Pinky
deriving DecidableEq

/-- Rust `enum Hand`. -/
inductive Hand
  | Left
  | Right
deriving DecidableEq

/-- Rust `enum Row`. -/
inductive Row
  | Top
  | Home
  | Bottom
deriving DecidableEq

/-- A `Layer` holds one character per slot of the 30-key grid
(Rust `Layer(KeyMap([char; 30]))`). -/
abbrev Layer := Fin 30 → Char

/-- Rust `struct KeyPress`: the per-character record stored in the
position map.  `pos` is the grid slot the character sits in. -/
structure KeyPress where
  kc : Char
  pos : Fin 30
  finger : Finger
  hand : Hand
  row : Row
  center : Bool
deriving DecidableEq

/-- Rust `struct Layout(Layer, Layer)`: lower (unshifted) and upper
(shifted) layers. -/
structure Layout where
  lower : Layer
  upper : Layer

/- ===== Statics (src/layout.rs lines 118-146) ===== -/

/-- Rust `LAYOUT_MASK_SWAP_OFFSETS: [usize; 29]`. -/
def LAYOUT_MASK_SWAP_OFFSETS : List Nat :=
  [0, 0, 0, 0, 0, 0, 0, 0, 0, 0,
   1, 1, 1, 1, 1, 1, 1, 1, 1, 1,
   1, 1, 1, 1, 1, 1, 1, 1, 1]

/-- Rust `LAYOUT_MASK_NUM_SWAPPABLE`. -/
def LAYOUT_MASK_NUM_SWAPPABLE : Nat := 29

/-- Rust `KEY_FINGERS` table. -/
def KEY_FINGERS : Fin 30 → Finger := fun i =>
  [Finger.Pinky, Finger.Ring, Finger.Middle, Finger.Index, Finger.Index,
   Finger.Index, Finger.Index, Finger.Middle, Finger.Ring, Finger.Pinky,
   Finger.Pinky, Finger.Ring, Finger.Middle, Finger.Index, Finger.Index,
   Finger.Index, Finger.Index, Finger.Middle, Finger.Ring, Finger.Pinky,
   Finger.Pinky, Finger.Ring, Finger.Middle, Finger.Index, Finger.Index,
   Finger.Index, Finger.Index, Finger.Middle, Finger.Ring, Finger.Pinky].getD i.val Finger.Index

/-- Rust `KEY_HANDS` table. -/
def KEY_HANDS : Fin 30 → Hand := fun i =>
  [Hand.Left, Hand.Left, Hand.Left, Hand.Left, Hand.Left,
   Hand.Right, Hand.Right, Hand.Right, Hand.Right, Hand.Right,
   Hand.Left, Hand.Left, Hand.Left, Hand.Left, Hand.Left,
   Hand.Right, Hand.Right, Hand.Right, Hand.Right, Hand.Right,
   Hand.Left, Hand.Left, Hand.Left, Hand.Left, Hand.Left,
   Hand.Right, Hand.Right, Hand.Right, Hand.Right, Hand.Right].getD i.val Hand.Left

/-- Rust `KEY_ROWS` table. -/
def KEY_ROWS : Fin 30 → Row := fun i =>
  [Row.Top, Row.Top, Row.Top, Row.Top, Row.Top,
   Row.Top, Row.Top, Row.Top, Row.Top, Row.Top,
   Row.Home, Row.Home, Row.Home, Row.Home, Row.Home,
   Row.Home, Row.Home, Row.Home, Row.Home, Row.Home,
   Row.Bottom, Row.Bottom, Row.Bottom, Row.Bottom, Row.Bottom,
   Row.Bottom, Row.Bottom, Row.Bottom, Row.Bottom, Row.Bottom].getD i.val Row.Top

/-- Rust `KEY_CENTER_COLUMN` table. -/
def KEY_CENTER_COLUMN : Fin 30 → Bool := fun i =>
  [false, false, false, false, true, true, false, false, false, false,
   false, false, false, false, true, true, false, false, false, false,
   false, false, false, false, true, true, false, false, false, false].getD i.val false

/-- Rust `LAYOUT_FILE_IDXS` remap table (grid slot → file position). -/
def LAYOUT_FILE_IDXS : Fin 30 → Nat := fun i =>
  [0, 1, 2, 3, 4, 6, 7, 8, 9, 10,
   12, 13, 14, 15, 16, 18, 19, 20, 21, 22,
   24, 25, 26, 27, 28, 30, 31, 32, 33, 34].getD i.val 0

/-- The unassigned marker, Rust character `\0`. -/
def nullChar : Char := Char.ofNat 0

/- ===== Layer::swap and paired swapping (src/layout.rs 206-214, 170-178) ===== -/

/-- Rust `Layer::swap(i, j)`: `temp = layer[i]; layer[i] = layer[j];
layer[j] = temp`, as a pure function on the layer contents. -/
def Layer.swap (layer : Layer) (i j : Fin 30) : Layer := fun k =>
  if k = i then layer j else if k = j then layer i else layer k

/-- One simultaneous swap of grid positions `i, j` in both layers, exactly
as `Layout::shuffle` and `LayoutPermutations::next` perform it
(`lower.swap(i, j); upper.swap(i, j)`). -/
def Layout.swapBoth (L : Layout) (i j : Fin 30) : Layout :=
  ⟨Layer.swap L.lower i j, Layer.swap L.upper i j⟩

/- ===== Layout::shuffle_position and Layout::shuffle (src/layout.rs 170-203) ===== -/

/-- Rust `Layout::shuffle_position()`, with the two `random::<usize>()`
draws made explicit arguments `r1, r2`. -/
def shuffle_position (r1 r2 : Nat) : Nat × Nat :=
  let i := r1 % LAYOUT_MASK_NUM_SWAPPABLE
  let j0 := r2 % (LAYOUT_MASK_NUM_SWAPPABLE - 1)
  let j := if j0 ≥ i then j0 + 1 else j0
  (i + LAYOUT_MASK_SWAP_OFFSETS.getD i 0, j + LAYOUT_MASK_SWAP_OFFSETS.getD j 0)

/-- Swap raw (usize) indices in both layers; `none` models the Rust panic
when an index is outside the 30-slot grid. -/
def swapNatChecked (L : Layout) (i j : Nat) : Option Layout :=
  if hi : i < 30 then
    if hj : j < 30 then some (L.swapBoth ⟨i, hi⟩ ⟨j, hj⟩) else none
  else none

/-- One iteration of the loop body of Rust `Layout::shuffle`, consuming one
pair of random draws. -/
def shuffleStep (L : Layout) (r : Nat × Nat) : Option Layout :=
  swapNatChecked L (shuffle_position r.1 r.2).1 (shuffle_position r.1 r.2).2

/-- Rust `Layout::shuffle(times)`, with the random stream made explicit:
each list element is the pair of draws of one iteration. -/
def Layout.shuffle (L : Layout) (draws : List (Nat × Nat)) : Option Layout :=
  draws.foldl (fun o r => o.bind (fun M => shuffleStep M r)) (some L)

/- ===== Claim C5 ===== -/

/-- Claim C5: for every layer and all grid indices `i, j < 30`, applying
`Layer::swap(i, j)` twice leaves the 30-character contents exactly as they
were (swap is an involution). -/
theorem c5_swap_involution (layer : Layer) (i j : Fin 30) :
    Layer.swap (Layer.swap layer i j) i j = layer := by
  funext k
  unfold Layer.swap
  by_cases hki : k = i <;> by_cases hkj : k = j <;> by_cases hij : j = i <;>
    simp [hki, hkj, hij]

/- ===== Claim C6 ===== -/

/-- Claim C6: for all values of the two random draws, `shuffle_position`
returns grid indices that are distinct, inside the 30-slot grid and never
equal to the pinned slot 10, so the subsequent `Layer::swap` calls never
index out of bounds. -/
theorem c6_shuffle_position_safe (r1 r2 : Nat) :
    (shuffle_position r1 r2).1 < 30 ∧
    (shuffle_position r1 r2).2 < 30 ∧
    (shuffle_position r1 r2).1 ≠ (shuffle_position r1 r2).2 ∧
    (shuffle_position r1 r2).1 ≠ 10 ∧
    (shuffle_position r1 r2).2 ≠ 10 ∧
    ∀ L : Layout, (shuffleStep L (r1, r2)).isSome := by
  have h29 : r1 % 29 < 29 := Nat.mod_lt _ (by decide)
  have h28 : r2 % 28 < 28 := Nat.mod_lt _ (by decide)
  have key : ∀ a : Fin 29, ∀ b : Fin 28,
      (shuffle_position a.val b.val).1 < 30 ∧
      (shuffle_position a.val b.val).2 < 30 ∧
      (shuffle_position a.val b.val).1 ≠ (shuffle_position a.val b.val).2 ∧
      (shuffle_position a.val b.val).1 ≠ 10 ∧
      (shuffle_position a.val b.val).2 ≠ 10 := by decide
  have heq : shuffle_position r1 r2 =
      shuffle_position (r1 % 29) (r2 % 28) := by
    have e1 : r1 % 29 % 29 = r1 % 29 := Nat.mod_mod_of_dvd r1 (dvd_refl 29)
    have e2 : r2 % 28 % 28 = r2 % 28 := Nat.mod_mod_of_dvd r2 (dvd_refl 28)
    unfold shuffle_position
    simp [LAYOUT_MASK_NUM_SWAPPABLE, e1, e2]
  have hk := key ⟨r1 % 29, h29⟩ ⟨r2 % 28, h28⟩
  rw [heq]
  refine ⟨hk.1, hk.2.1, hk.2.2.1, hk.2.2.2.1, hk.2.2.2.2, ?_⟩
  intro L
  unfold shuffleStep swapNatChecked
  have h1 := hk.1
  have h2 := hk.2.1
  simp only [heq]
  rw [dif_pos h1, dif_pos h2]
  rfl

/- ===== Position map (src/layout.rs 180-189, 216-250) ===== -/

/-- The `KeyPress` record that `Layer::fill_position_map` builds for grid
slot `i` of a layer. -/
def keyPressAt (layer : Layer) (i : Fin 30) : KeyPress :=
  ⟨layer i, i, KEY_FINGERS i, KEY_HANDS i, KEY_ROWS i, KEY_CENTER_COLUMN i⟩

/-- The sequence of writes performed by `Layer::fill_position_map` as it
scans slots 0 through 29. -/
def layerWrites (layer : Layer) : List (Char × KeyPress) :=
  (List.finRange 30).map fun i => (layer i, keyPressAt layer i)

/-- One write of `Layer::fill_position_map`:
`if *c < (128 as char) { map[*c as usize] = Some(KeyPress { .. }) }`. -/
def mapWrite (m : Fin 128 → Option KeyPress) (w : Char × KeyPress) :
    Fin 128 → Option KeyPress :=
  if h : w.1.toNat < 128 then
    fun x => if x = ⟨w.1.toNat, h⟩ then some w.2 else m x
  else m

/-- Rust `Layer::fill_position_map`. -/
def fill_position_map (layer : Layer) (m : Fin 128 → Option KeyPress) :
    Fin 128 → Option KeyPress :=
  (layerWrites layer).foldl mapWrite m

/-- Rust `Layout::get_position_map`: start from all-`None`, fill from the
lower layer, then from the upper layer. -/
def Layout.get_position_map (L : Layout) : Fin 128 → Option KeyPress :=
  fill_position_map L.upper (fill_position_map L.lower (fun _ => none))

/-- Rust `LayoutPosMap::get_key_position`. -/
def Layout.get_key_position (L : Layout) (kc : Char) : Option KeyPress :=
  if h : kc.toNat < 128 then L.get_position_map ⟨kc.toNat, h⟩ else none

/-- All 60 map writes of `get_position_map`, in execution order: the lower
layer's slots 0..29, then the upper layer's slots 0..29. -/
def writeList (L : Layout) : List (Char × KeyPress) :=
  layerWrites L.lower ++ layerWrites L.upper

lemma char_toNat_inj {a b : Char} (h : a.toNat = b.toNat) : a = b :=
  Char.eq_of_val_eq (UInt32.eq_of_toBitVec_eq (by
    simp [Char.toNat, UInt32.toNat] at h
    exact BitVec.eq_of_toNat_eq h))

/-- Folding the write sequence: the entry at a code point `< 128` is the
last write whose character matches (later writes win). -/
lemma foldl_mapWrite_get (l : List (Char × KeyPress)) :
    ∀ (m0 : Fin 128 → Option KeyPress) (c : Char) (h : c.toNat < 128),
    (l.foldl mapWrite m0) ⟨c.toNat, h⟩ =
      (((l.filter (fun w => w.1 = c)).getLast?).map
        (fun w => some w.2)).getD (m0 ⟨c.toNat, h⟩) := by
  induction l with
  | nil => intro m0 c h; simp
  | cons w rest ih =>
    intro m0 c h
    rw [List.foldl_cons, ih]
    by_cases hp : w.1 = c
    · have hfc : (w :: rest).filter (fun w => w.1 = c) =
          w :: rest.filter (fun w => w.1 = c) := by
        simp [List.filter_cons, hp]
      rw [hfc]
      cases hr : rest.filter (fun w => w.1 = c) with
      | nil =>
        simp only [List.getLast?_nil, Option.map_none', Option.getD_none,
          List.getLast?_singleton, Option.map_some', Option.getD_some]
        unfold mapWrite
        rw [dif_pos (show w.1.toNat < 128 by rw [hp]; exact h)]
        simp [Fin.ext_iff, hp]
      | cons x xs =>
        rw [List.getLast?_cons_cons]
        have hy : ∃ y, (x :: xs).getLast? = some y := by
          cases e : (x :: xs).getLast? with
          | none => exact absurd (List.getLast?_eq_none_iff.mp e) (by simp)
          | some y => exact ⟨y, rfl⟩
        obtain ⟨y, hy⟩ := hy
        rw [hy]
        rfl
    · have hfc : (w :: rest).filter (fun w => w.1 = c) =
          rest.filter (fun w => w.1 = c) := by
        simp [List.filter_cons, hp]
      rw [hfc]
      have harg : mapWrite m0 w ⟨c.toNat, h⟩ = m0 ⟨c.toNat, h⟩ := by
        unfold mapWrite
        split
        · rename_i hw
          have hne : (⟨c.toNat, h⟩ : Fin 128) ≠ ⟨w.1.toNat, hw⟩ := by
            intro hx
            have hx2 : c.toNat = w.1.toNat := by simpa [Fin.ext_iff] using hx
            exact hp (char_toNat_inj hx2.symm)
          simp [hne]
        · rfl
      rw [harg]

/-- `get_key_position` resolves a code point `< 128` to the last matching
write of the lower-then-upper write sequence, and anything else to `None`. -/
lemma get_key_position_eq (L : Layout) (c : Char) :
    L.get_key_position c =
      if c.toNat < 128 then
        ((writeList L).filter (fun w => w.1 = c)).getLast?.map Prod.snd
      else none := by
  unfold Layout.get_key_position
  split
  · rename_i h
    show (layerWrites L.upper).foldl mapWrite
        ((layerWrites L.lower).foldl mapWrite (fun _ => none)) ⟨c.toNat, h⟩ = _
    rw [← List.foldl_append]
    have : layerWrites L.lower ++ layerWrites L.upper = writeList L := rfl
    rw [this, foldl_mapWrite_get]
    cases ((writeList L).filter (fun w => w.1 = c)).getLast? <;> simp
  · rfl

lemma mem_layerWrites {layer : Layer} {w : Char × KeyPress}
    (hw : w ∈ layerWrites layer) :
    ∃ i : Fin 30, w.1 = layer i ∧ w.2 = keyPressAt layer i := by
  unfold layerWrites at hw
  obtain ⟨i, _, rfl⟩ := List.mem_map.mp hw
  exact ⟨i, rfl, rfl⟩

lemma layerWrites_mem (layer : Layer) (i : Fin 30) :
    (layer i, keyPressAt layer i) ∈ layerWrites layer :=
  List.mem_map_of_mem _ (List.mem_finRange i)

/- ===== Claim C8 ===== -/

/-- Claim C8: `get_position_map` fills entries from the lower layer first
and then the upper layer, each scanned slot 0 through 29, so a character
occurring at several slots resolves to the entry written last in this
order (the later write wins); the write sequence `writeList` is by
definition the lower layer's 30 writes followed by the upper layer's. -/
theorem c8_later_write_wins (L : Layout) (c : Char) :
    L.get_key_position c =
      if c.toNat < 128 then
        ((writeList L).filter (fun w => w.1 = c)).getLast?.map Prod.snd
      else none :=
  get_key_position_eq L c

/- ===== Claim C3 ===== -/

/-- Claim C3 (amended): for a character with code point `< 128` assigned
somewhere in either layer, `get_key_position` returns `Some` of a
`KeyPress` whose `pos` is a grid slot holding that character; a character
assigned nowhere resolves to `None`; and every character with code point
`>= 128` resolves to `None` regardless of the layout. -/
theorem c3_position_map_roundtrip (L : Layout) (c : Char) :
    (c.toNat < 128 →
      (∃ i : Fin 30, L.lower i = c ∨ L.upper i = c) →
      ∃ kp : KeyPress, L.get_key_position c = some kp ∧ kp.kc = c ∧
        (L.lower kp.pos = c ∨ L.upper kp.pos = c)) ∧
    ((∀ i : Fin 30, L.lower i ≠ c ∧ L.upper i ≠ c) →
      L.get_key_position c = none) ∧
    (128 ≤ c.toNat → L.get_key_position c = none) := by
  refine ⟨?_, ?_, ?_⟩
  · rintro h128 ⟨i, hi⟩
    rw [get_key_position_eq, if_pos h128]
    have hne : (writeList L).filter (fun w => w.1 = c) ≠ [] := by
      intro hnil
      have hall := List.filter_eq_nil_iff.mp hnil
      cases hi with
      | inl hl =>
        have hm : ((c, keyPressAt L.lower i) : Char × KeyPress) ∈ writeList L := by
          unfold writeList
          exact List.mem_append_left _ (hl ▸ layerWrites_mem L.lower i)
        exact absurd (by simp) (hall _ hm)
      | inr hu =>
        have hm : ((c, keyPressAt L.upper i) : Char × KeyPress) ∈ writeList L := by
          unfold writeList
          exact List.mem_append_right _ (hu ▸ layerWrites_mem L.upper i)
        exact absurd (by simp) (hall _ hm)
    obtain ⟨w, hw⟩ : ∃ w, ((writeList L).filter (fun w => w.1 = c)).getLast? = some w := by
      cases e : ((writeList L).filter (fun w => w.1 = c)).getLast? with
      | none => exact absurd (List.getLast?_eq_none_iff.mp e) hne
      | some w => exact ⟨w, rfl⟩
    have hwmem : w ∈ (writeList L).filter (fun w => w.1 = c) := by
      obtain ⟨h0, hw2⟩ := List.mem_getLast?_eq_getLast (Option.mem_def.mpr hw)
      exact hw2 ▸ List.getLast_mem h0
    obtain ⟨hwl, hwc⟩ := List.mem_filter.mp hwmem
    have hwc : w.1 = c := by simpa using hwc
    refine ⟨w.2, by rw [hw]; rfl, ?_, ?_⟩
    · rcases List.mem_append.mp hwl with hm | hm
      · obtain ⟨i0, h1, h2⟩ := mem_layerWrites hm
        rw [h2]
        show L.lower i0 = c
        rw [← h1, hwc]
      · obtain ⟨i0, h1, h2⟩ := mem_layerWrites hm
        rw [h2]
        show L.upper i0 = c
        rw [← h1, hwc]
    · rcases List.mem_append.mp hwl with hm | hm
      · obtain ⟨i0, h1, h2⟩ := mem_layerWrites hm
        left
        rw [h2]
        show L.lower i0 = c
        rw [← h1, hwc]
      · obtain ⟨i0, h1, h2⟩ := mem_layerWrites hm
        right
        rw [h2]
        show L.upper i0 = c
        rw [← h1, hwc]
  · intro hnone
    rw [get_key_position_eq]
    split
    · have hnil : (writeList L).filter (fun w => w.1 = c) = [] := by
        rw [List.filter_eq_nil_iff]
        intro w hw
        rcases List.mem_append.mp hw with hm | hm
        · obtain ⟨i0, h1, _⟩ := mem_layerWrites hm
          simp [h1, (hnone i0).1]
        · obtain ⟨i0, h1, _⟩ := mem_layerWrites hm
          simp [h1, (hnone i0).2]
      rw [hnil]
      rfl
    · rfl
  · intro h128
    unfold Layout.get_key_position
    rw [dif_neg (by omega)]

/-- A concrete layout used as test input: lower layer `A`..`]`
(code points 65..94), upper layer `a`..`~` (97..126); all 60 characters
are pairwise distinct. -/
def testL : Layout :=
  ⟨fun i => Char.ofNat (65 + i.val), fun i => Char.ofNat (97 + i.val)⟩

/-- Witness for claim C3's theorem at the concrete layout `testL` and
character `C` (assigned at lower slot 2). -/
theorem c3_position_map_roundtrip_witness :
    ((Char.toNat 'C' < 128 ∧ ∃ i : Fin 30, testL.lower i = 'C' ∨ testL.upper i = 'C') ∧
      ∃ kp : KeyPress, testL.get_key_position 'C' = some kp ∧ kp.kc = 'C' ∧
        (testL.lower kp.pos = 'C' ∨ testL.upper kp.pos = 'C')) ∧
    ((∀ i : Fin 30, testL.lower i ≠ '0' ∧ testL.upper i ≠ '0') ∧
      testL.get_key_position '0' = none) ∧
    (128 ≤ Char.toNat (Char.ofNat 200) ∧
      testL.get_key_position (Char.ofNat 200) = none) :=
  ⟨⟨⟨by decide, by decide⟩,
      (c3_position_map_roundtrip testL 'C').1 (by decide) (by decide)⟩,
    ⟨by decide, (c3_position_map_roundtrip testL '0').2.1 (by decide)⟩,
    ⟨by decide, (c3_position_map_roundtrip testL (Char.ofNat 200)).2.2 (by decide)⟩⟩

/- ===== Layout::from_string (src/layout.rs 154-168) ===== -/

/-- Rust `Layout::from_string`: slot `i` of the lower layer takes the
character of the specification at file position `LAYOUT_FILE_IDXS[i]`,
slot `i` of the upper layer the one at that position plus 36; positions
past the end of the string default to the unassigned marker `\0`
(`s.get(file_i).unwrap_or(&'\0')`). -/
def Layout.from_string (s : List Char) : Layout :=
  ⟨fun i => (s.get? (LAYOUT_FILE_IDXS i)).getD nullChar,
   fun i => (s.get? (LAYOUT_FILE_IDXS i + 36)).getD nullChar⟩

/-- Counterexample to claim C3 as frozen: the character with code point
233 is assigned to lower slot 0 of `Layout::from_string` of the
one-character specification holding it, yet `get_key_position` resolves
it to `None` (the claim asserts every assigned character resolves to
`Some`). -/
theorem c3_position_map_roundtrip_counterexample :
    (∃ i : Fin 30, (Layout.from_string [Char.ofNat 233]).lower i = Char.ofNat 233) ∧
    (Layout.from_string [Char.ofNat 233]).get_key_position (Char.ofNat 233) = none := by
  constructor
  · exact ⟨0, by decide⟩
  · decide

lemma layout_ext {A B : Layout} (h1 : A.lower = B.lower)
    (h2 : A.upper = B.upper) : A = B := by
  cases A
  cases B
  cases h1
  cases h2
  rfl

/- ===== Claim C7 ===== -/

/-- Claim C7: `Layout::from_string` assigns lower slot `i` the character
at file position `LAYOUT_FILE_IDXS[i]` and upper slot `i` the one at that
position plus 36; positions past the end of the specification yield the
unassigned marker; and file positions 5, 11, 17, 23, 29, 35 of each
36-character half are never read (two specifications agreeing everywhere
else below position 72 produce the same layout). -/
theorem c7_from_string_remap :
    (∀ (s : List Char) (i : Fin 30),
      (Layout.from_string s).lower i = (s.get? (LAYOUT_FILE_IDXS i)).getD nullChar ∧
      (Layout.from_string s).upper i = (s.get? (LAYOUT_FILE_IDXS i + 36)).getD nullChar) ∧
    (∀ (s : List Char) (i : Fin 30),
      (s.length ≤ LAYOUT_FILE_IDXS i → (Layout.from_string s).lower i = nullChar) ∧
      (s.length ≤ LAYOUT_FILE_IDXS i + 36 → (Layout.from_string s).upper i = nullChar)) ∧
    (∀ s t : List Char,
      (∀ k : Nat, k < 72 →
        ¬ (k % 36 = 5 ∨ k % 36 = 11 ∨ k % 36 = 17 ∨ k % 36 = 23 ∨
           k % 36 = 29 ∨ k % 36 = 35) →
        s.get? k = t.get? k) →
      Layout.from_string s = Layout.from_string t) := by
  refine ⟨fun s i => ⟨rfl, rfl⟩, ?_, ?_⟩
  · intro s i
    constructor
    · intro hlen
      show (s.get? (LAYOUT_FILE_IDXS i)).getD nullChar = nullChar
      rw [List.get?_eq_none.mpr hlen]
      rfl
    · intro hlen
      show (s.get? (LAYOUT_FILE_IDXS i + 36)).getD nullChar = nullChar
      rw [List.get?_eq_none.mpr hlen]
      rfl
  · intro s t hagree
    have hidx : ∀ i : Fin 30, LAYOUT_FILE_IDXS i < 36 ∧
        ¬ (LAYOUT_FILE_IDXS i = 5 ∨ LAYOUT_FILE_IDXS i = 11 ∨
           LAYOUT_FILE_IDXS i = 17 ∨ LAYOUT_FILE_IDXS i = 23 ∨
           LAYOUT_FILE_IDXS i = 29 ∨ LAYOUT_FILE_IDXS i = 35) := by decide
    apply layout_ext
    · funext i
      obtain ⟨hlt, hnot⟩ := hidx i
      have hk : s.get? (LAYOUT_FILE_IDXS i) = t.get? (LAYOUT_FILE_IDXS i) := by
        apply hagree _ (by omega)
        rw [Nat.mod_eq_of_lt hlt]
        exact hnot
      show (s.get? (LAYOUT_FILE_IDXS i)).getD nullChar = _
      rw [hk]
      rfl
    · funext i
      obtain ⟨hlt, hnot⟩ := hidx i
      have hk : s.get? (LAYOUT_FILE_IDXS i + 36) = t.get? (LAYOUT_FILE_IDXS i + 36) := by
        apply hagree _ (by omega)
        rw [Nat.add_mod_right, Nat.mod_eq_of_lt hlt]
        exact hnot
      show (s.get? (LAYOUT_FILE_IDXS i + 36)).getD nullChar = _
      rw [hk]
      rfl

/-- Witness for claim C7's theorem: concrete instantiations of each part,
including two specifications that differ only at the unused file
position 5 and produce the same layout. -/
theorem c7_from_string_remap_witness :
    ((Layout.from_string [Char.ofNat 97]).lower 0 =
      (([Char.ofNat 97] : List Char).get? (LAYOUT_FILE_IDXS 0)).getD nullChar) ∧
    ((([Char.ofNat 97] : List Char).length ≤ LAYOUT_FILE_IDXS 1) ∧
      (Layout.from_string [Char.ofNat 97]).lower 1 = nullChar) ∧
    Layout.from_string
        [Char.ofNat 97, Char.ofNat 98, Char.ofNat 99, Char.ofNat 100,
         Char.ofNat 101, Char.ofNat 88] =
      Layout.from_string
        [Char.ofNat 97, Char.ofNat 98, Char.ofNat 99, Char.ofNat 100,
         Char.ofNat 101, Char.ofNat 89] :=
  ⟨(c7_from_string_remap.1 [Char.ofNat 97] 0).1,
    ⟨by decide, ((c7_from_string_remap.2.1 [Char.ofNat 97] 1).1 (by decide))⟩,
    c7_from_string_remap.2.2 _ _ (by decide)⟩

/- ===== LayoutPermutations (src/layout.rs 252-318) ===== -/

/-- Rust `struct LayoutPermutations`: the original layout, the mutable
vector of `2 * depth` swap indices, and the started flag. -/
structure LayoutPermutations where
  orig_layout : Layout
  swap_idx : List Nat
  started : Bool

/-- Rust `LayoutPermutations::new`: `depth * 2` zeroed indices, not
started. -/
def LayoutPermutations.new (layout : Layout) (depth : Nat) : LayoutPermutations :=
  ⟨layout, List.replicate (depth * 2) 0, false⟩

/-- The scan of `next`'s advance loop: find the first position `i` whose
index can still grow (`*e + 1 < LAYOUT_MASK_NUM_SWAPPABLE - i`), returning
the position and the incremented value. -/
def odoFind : List Nat → Nat → Option (Nat × Nat)
  | [], _ => none
  | e :: rest, i =>
    if e + 1 < LAYOUT_MASK_NUM_SWAPPABLE - i then some (i, e + 1)
    else odoFind rest (i + 1)

/-- The cascade loop `for i in 0..idx { self.swap_idx[i] = val + idx - i }`:
positions before `idx` are reset to `val + idx - position`, the rest kept. -/
def odoCascade : List Nat → Nat → Nat → List Nat
  | [], _, _ => []
  | e :: rest, idx, val =>
    (if idx = 0 then e else val + idx) :: odoCascade rest (idx - 1) val

/-- The index-state transition of `next`: `some (some s)` advances to `s`
(the increment `*e += 1` is the `List.set`, then the cascade resets the
positions before it); `some none` means no index can advance (the iterator
is exhausted); `none` marks the depth-0 panic: the not-yet-started branch
uses `idx = 1, val = 0`, so its cascade writes `swap_idx[0]`, out of
bounds for an empty index vector. -/
def advanceIdx (s : List Nat) (started : Bool) : Option (Option (List Nat)) :=
  match started with
  | true =>
    match odoFind s 0 with
    | none => some none
    | some (i, v) => some (some (odoCascade (s.set i v) i v))
  | false =>
    if 1 ≤ s.length then some (some (odoCascade s 1 0)) else none

/-- One swap of the emission loop of `next`:
`swap_left = swap_idx[i] + LAYOUT_MASK_SWAP_OFFSETS[swap_idx[i]]` (and
likewise `swap_right` for `i + 1`), then both layers swap those grid
slots; `none` marks an out-of-bounds offset-table or grid access. -/
def gridSwapChecked (L : Layout) (a b : Nat) : Option Layout :=
  match LAYOUT_MASK_SWAP_OFFSETS.get? a, LAYOUT_MASK_SWAP_OFFSETS.get? b with
  | some oa, some ob => swapNatChecked L (a + oa) (b + ob)
  | _, _ => none

/-- The emission loop of `next`: consume the index vector two entries at a
time, swapping the corresponding grid slots in both layers; an odd tail
would access `swap_idx[i + 1]` out of bounds (`none`). -/
def applySwaps : Layout → List Nat → Option Layout
  | L, [] => some L
  | _, [_] => none
  | L, a :: b :: rest =>
    match gridSwapChecked L a b with
    | none => none
    | some M => applySwaps M rest

/-- Rust `LayoutPermutations::next` (`impl Iterator`): `some (some ..)`
yields a cloned-and-swapped layout plus the successor state, `some none`
is the iterator's `None` (state unchanged), and `none` marks a panic. -/
def LayoutPermutations.next (st : LayoutPermutations) :
    Option (Option (Layout × LayoutPermutations)) :=
  match advanceIdx st.swap_idx st.started with
  | none => none
  | some none => some none
  | some (some s2) =>
    match applySwaps st.orig_layout s2 with
    | none => none
    | some M => some (some (M, ⟨st.orig_layout, s2, true⟩))

/-- The swap-index vectors emitted by the first `n` calls to `next`,
computed on the pure index state (the emitted vector is the index vector
right after the advance). -/
def vecTrace (s : List Nat) (started : Bool) : Nat → List (List Nat)
  | 0 => []
  | n + 1 =>
    match advanceIdx s started with
    | some (some s2) => s2 :: vecTrace s2 true n
    | _ => []

/-- The layouts emitted by the first `n` calls to `next`. -/
def layoutTrace (st : LayoutPermutations) : Nat → List Layout
  | 0 => []
  | n + 1 =>
    match st.next with
    | some (some (M, st2)) => M :: layoutTrace st2 n
    | _ => []

/-- The iterator state after `n` calls to `next`; `none` once some call
panicked.  A call that returns the iterator's `None` leaves the state
unchanged. -/
def runNext (st : LayoutPermutations) : Nat → Option LayoutPermutations
  | 0 => some st
  | n + 1 =>
    match st.next with
    | none => none
    | some none => runNext st n
    | some (some (_, st2)) => runNext st2 n

/-- Pure-index-state version of `runNext`. -/
def pureRun (s : List Nat) (started : Bool) : Nat → Option (List Nat × Bool)
  | 0 => some (s, started)
  | n + 1 =>
    match advanceIdx s started with
    | none => none
    | some none => pureRun s started n
    | some (some s2) => pureRun s2 true n

/-- The 406 swap-index vectors emitted at depth 1, in emission order: for
each unordered pair of compact indices `b < a ≤ 28` the vector `[a, b]`,
ordered lexicographically by the increasing enumeration `{b, a}` of the
2-element subset. -/
def lexPairs : List (List Nat) :=
  (List.range 29).flatMap fun b => (List.range' (b + 1) (28 - b)).map fun a => [a, b]

set_option maxHeartbeats 4000000

lemma vecTrace_depth1 : vecTrace (List.replicate 2 0) false 406 = lexPairs := by
  decide

lemma vecTrace_depth1_stop : vecTrace (List.replicate 2 0) false 407 = lexPairs := by
  decide

lemma pureRun_depth1 : pureRun (List.replicate 2 0) false 406 = some ([28, 27], true) := by
  decide

lemma lexPairs_mem_iff (v : List Nat) :
    v ∈ lexPairs ↔ ∃ x y : Nat, v = [x, y] ∧ y < x ∧ x < 29 := by
  unfold lexPairs
  rw [List.mem_flatMap]
  constructor
  · rintro ⟨b, hb, hmem⟩
    obtain ⟨a, ha, rfl⟩ := List.mem_map.mp hmem
    obtain ⟨h1, h2⟩ := List.mem_range'_1.mp ha
    have hb29 := List.mem_range.mp hb
    exact ⟨a, b, rfl, by omega, by omega⟩
  · rintro ⟨x, y, rfl, h1, h2⟩
    refine ⟨y, List.mem_range.mpr (by omega), ?_⟩
    exact List.mem_map.mpr ⟨x, List.mem_range'_1.mpr ⟨by omega, by omega⟩, rfl⟩

lemma lexPairs_nodup : lexPairs.Nodup := by
  unfold lexPairs
  rw [List.nodup_flatMap]
  constructor
  · intro b _
    apply List.Nodup.map
    · intro a1 a2 h
      simpa using h
    · exact List.nodup_range' _ _
  · rw [List.pairwise_iff_forall_sublist]
    rintro b1 b2 hsub
    have hne : b1 ≠ b2 := by
      have := (List.nodup_range 29).sublist hsub
      simp at this
      exact this
    intro v hv1 hv2
    simp only [Function.onFun] at hv1 hv2
    obtain ⟨a1, _, rfl⟩ := List.mem_map.mp hv1
    obtain ⟨a2, _, heq⟩ := List.mem_map.mp hv2
    simp at heq
    exact hne (heq.2.symm)

/- ===== Claim C2 ===== -/

/-- Claim C2 (amended): at depth 1 the index-state transition (advance
the first index with remaining room, cascade-reset the indices before it)
enumerates exactly the strictly decreasing 2-tuples over `{0,...,28}`,
once each, in lexicographic subset order, and a 407th call yields nothing
more; at depth `d >= 2` the sequence additionally passes through
zero-padded vectors that are not strictly decreasing `2d`-tuples (see the
counterexample), so there the frozen claim fails. -/
theorem c2_odometer_is_lex_combinations :
    vecTrace (List.replicate 2 0) false 406 = lexPairs ∧
    vecTrace (List.replicate 2 0) false 407 = lexPairs ∧
    lexPairs.Nodup ∧
    (∀ v : List Nat, v ∈ lexPairs ↔ ∃ x y : Nat, v = [x, y] ∧ y < x ∧ x < 29) ∧
    (∀ L : Layout, (LayoutPermutations.new L 1).swap_idx = List.replicate 2 0 ∧
      (LayoutPermutations.new L 1).started = false) :=
  ⟨vecTrace_depth1, vecTrace_depth1_stop, lexPairs_nodup, lexPairs_mem_iff,
    fun _ => ⟨rfl, rfl⟩⟩

/-- Counterexample to claim C2 as frozen: at depth 2 the first call
produces the swap-index vector `[1, 0, 0, 0]`, which is not a strictly
decreasing 4-tuple (its last three entries are equal), so the sequence
does not visit only strictly decreasing `2d`-tuples. -/
theorem c2_odometer_is_lex_combinations_counterexample :
    (∀ L : Layout, (LayoutPermutations.new L 2).swap_idx = List.replicate 4 0 ∧
      (LayoutPermutations.new L 2).started = false) ∧
    vecTrace (List.replicate 4 0) false 1 = [[1, 0, 0, 0]] ∧
    ¬ List.Pairwise (fun x y => y < x) [1, 0, 0, 0] :=
  ⟨fun _ => ⟨rfl, rfl⟩, by decide, by decide⟩

/- ===== numopt (src/main.rs 92-94, 157-171) ===== -/

/-- `usize::MAX` on the 64-bit target. -/
def USIZE_MAX : Nat := 2 ^ 64 - 1

/-- Model of `num.parse::<usize>()` on a 64-bit target: an optional
leading `+` sign followed by at least one ASCII digit, and the value must
fit in `usize` — a string whose digits denote a number above `usize::MAX`
returns `Err` (Rust's checked accumulation overflows), hence `none`. -/
def parseUsize (s : String) : Option Nat :=
  let cs := match s.data with
    | '+' :: rest => rest
    | l => l
  if cs ≠ [] ∧ cs.all (fun c => c.isDigit) then
    let n := cs.foldl (fun a c => a * 10 + (c.toNat - 48)) 0
    if n ≤ USIZE_MAX then some n else none
  else none

/-- Rust `numopt` at `usize`, with the `println!` report made explicit:
the first component is the returned value, the second the offending value
reported when parsing fails (`none` when nothing is reported). -/
def numopt (s : Option String) (default : Nat) : Nat × Option String :=
  match s with
  | none => (default, none)
  | some num =>
    match parseUsize num with
    | some n => (n, none)
    | none => (default, some num)

/-- `main`'s top-K option: `numopt(matches.opt_str("t"), 1usize)`. -/
def mainTop (t : Option String) : Nat := (numopt t 1).1

/-- `main`'s swaps option: `numopt(matches.opt_str("s"), 3usize)`. -/
def mainSwaps (s : Option String) : Nat := (numopt s 3).1

/- ===== Claim C9 ===== -/

/-- Claim C9: an absent numeric option yields the supplied default (1 for
top-K, 3 for swaps-per-iteration); a value that fails to parse is
reported and the default returned; otherwise the parsed value is
returned.  In every case the value handed to the search is either the
default or a successfully parsed number. -/
theorem c9_numopt_fallback (s : Option String) (d : Nat) :
    (s = none → numopt s d = (d, none)) ∧
    (∀ str, s = some str → parseUsize str = none → numopt s d = (d, some str)) ∧
    (∀ str n, s = some str → parseUsize str = some n → numopt s d = (n, none)) ∧
    ((numopt s d).1 = d ∨
      ∃ str n, s = some str ∧ parseUsize str = some n ∧ (numopt s d).1 = n) ∧
    mainTop none = 1 ∧ mainSwaps none = 3 := by
  refine ⟨?_, ?_, ?_, ?_, rfl, rfl⟩
  · rintro rfl
    rfl
  · rintro str rfl hp
    simp [numopt, hp]
  · rintro str n rfl hp
    simp [numopt, hp]
  · cases s with
    | none => exact Or.inl rfl
    | some str =>
      cases hp : parseUsize str with
      | none => exact Or.inl (by simp [numopt, hp])
      | some n => exact Or.inr ⟨str, n, rfl, hp, by simp [numopt, hp]⟩

/-- Witness for claim C9's theorem: a parsed value, a malformed value, a
`usize`-overflowing value (`2^64`, which `parse::<usize>()` rejects, so
the default is returned and the value reported) and an absent option,
each at a concrete input. -/
theorem c9_numopt_fallback_witness :
    numopt (some "12") 1 = (12, none) ∧
    numopt (some "x2") 3 = (3, some "x2") ∧
    numopt (some "18446744073709551616") 3 =
      (3, some "18446744073709551616") ∧
    numopt none 1 = (1, none) :=
  ⟨(c9_numopt_fallback (some "12") 1).2.2.1 "12" 12 rfl (by decide),
    (c9_numopt_fallback (some "x2") 3).2.1 "x2" rfl (by decide),
    (c9_numopt_fallback (some "18446744073709551616") 3).2.1
      "18446744073709551616" rfl (by decide),
    (c9_numopt_fallback none 1).1 rfl⟩

/- ===== Bounds invariant of the permutation iterator ===== -/

/-- Every entry `x` at position `i` of the swap-index vector satisfies
`x + i <= 28`: the in-bounds invariant maintained by the odometer. -/
def entriesBounded (s : List Nat) : Prop :=
  ∀ i x, s.get? i = some x → x + i ≤ 28

/-- The iterator-state invariant: even length (`2 * depth`), at least one
slot, at most 29 slots, entries bounded. -/
def InvSt (s : List Nat) : Prop :=
  s.length % 2 = 0 ∧ 1 ≤ s.length ∧ s.length ≤ 29 ∧ entriesBounded s

lemma odoFind_spec :
    ∀ (s : List Nat) (k i v : Nat), odoFind s k = some (i, v) →
      k ≤ i ∧ ∃ x, s.get? (i - k) = some x ∧ v = x + 1 ∧ v + i ≤ 28 := by
  intro s
  induction s with
  | nil => intro k i v h; simp [odoFind] at h
  | cons e rest ih =>
    intro k i v h
    unfold odoFind at h
    split at h
    · rename_i hcond
      simp [LAYOUT_MASK_NUM_SWAPPABLE] at hcond
      cases h
      exact ⟨le_refl _, e, by simp, rfl, by omega⟩
    · obtain ⟨hk, x, hx, hv, hb⟩ := ih (k + 1) i v h
      refine ⟨by omega, x, ?_, hv, hb⟩
      have he : i - k = (i - (k + 1)) + 1 := by omega
      rw [he]
      simpa using hx

lemma odoCascade_get? :
    ∀ (s : List Nat) (idx val j : Nat),
      (odoCascade s idx val).get? j =
        (s.get? j).map (fun e => if j < idx then val + (idx - j) else e) := by
  intro s
  induction s with
  | nil => intro idx val j; simp [odoCascade]
  | cons e rest ih =>
    intro idx val j
    cases j with
    | zero =>
      show ((if idx = 0 then e else val + idx) :: odoCascade rest (idx - 1) val).get? 0 = _
      simp only [List.get?_cons_zero, Option.map_some']
      congr 1
      by_cases h0 : idx = 0
      · simp [h0]
      · rw [if_neg h0, if_pos (by omega)]
        omega
    | succ j =>
      show ((if idx = 0 then e else val + idx) :: odoCascade rest (idx - 1) val).get? (j + 1) = _
      rw [List.get?_cons_succ, ih, List.get?_cons_succ]
      cases hx : rest.get? j with
      | none => rfl
      | some x =>
        simp only [Option.map_some']
        congr 1
        by_cases hj : j + 1 < idx
        · rw [if_pos (by omega), if_pos hj]
          congr 1
          omega
        · rw [if_neg (by omega), if_neg hj]

lemma odoCascade_length (s : List Nat) :
    ∀ idx val, (odoCascade s idx val).length = s.length := by
  induction s with
  | nil => intro idx val; rfl
  | cons e rest ih =>
    intro idx val
    show (odoCascade (e :: rest) idx val).length = rest.length + 1
    unfold odoCascade
    simp [ih]

lemma advance_preserves :
    ∀ (s : List Nat) (b : Bool) (s2 : List Nat), InvSt s →
      advanceIdx s b = some (some s2) → InvSt s2 ∧ s2.length = s.length := by
  intro s b s2 hInv hadv
  obtain ⟨hmod, hone, hlen, hent⟩ := hInv
  cases b with
  | true =>
    unfold advanceIdx at hadv
    cases hfind : odoFind s 0 with
    | none => rw [hfind] at hadv; cases hadv
    | some iv =>
      obtain ⟨i, v⟩ := iv
      rw [hfind] at hadv
      cases hadv
      obtain ⟨-, x, hx, hv, hb⟩ := odoFind_spec s 0 i v hfind
      rw [Nat.sub_zero] at hx
      have hilen : i < s.length := by
        by_contra hge
        rw [List.get?_eq_none.mpr (by omega)] at hx
        cases hx
      have hlen2 : (odoCascade (s.set i v) i v).length = s.length := by
        rw [odoCascade_length, List.length_set]
      refine ⟨⟨by rw [hlen2]; exact hmod, by omega, by omega, ?_⟩, hlen2⟩
      intro j y hy
      rw [odoCascade_get?] at hy
      cases hget : (s.set i v).get? j with
      | none => rw [hget] at hy; cases hy
      | some e =>
        rw [hget] at hy
        simp only [Option.map_some', Option.some.injEq] at hy
        by_cases hji : j < i
        · rw [if_pos hji] at hy
          omega
        · rw [if_neg hji] at hy
          by_cases hje : j = i
          · subst hje
            rw [List.get?_set_eq_of_lt v hilen] at hget
            cases hget
            omega
          · rw [List.get?_set_ne v s (by omega)] at hget
            have := hent j e hget
            omega
  | false =>
    unfold advanceIdx at hadv
    rw [if_pos hone] at hadv
    cases hadv
    have hlen2 : (odoCascade s 1 0).length = s.length := odoCascade_length s 1 0
    refine ⟨⟨by rw [hlen2]; exact hmod, by omega, by omega, ?_⟩, hlen2⟩
    intro j y hy
    rw [odoCascade_get?] at hy
    cases hget : s.get? j with
    | none => rw [hget] at hy; cases hy
    | some e =>
      rw [hget] at hy
      simp only [Option.map_some', Option.some.injEq] at hy
      by_cases hj0 : j < 1
      · rw [if_pos hj0] at hy
        omega
      · rw [if_neg hj0] at hy
        have := hent j e hget
        omega

lemma advance_total (s : List Nat) (b : Bool) (hInv : InvSt s) :
    advanceIdx s b ≠ none := by
  cases b with
  | true =>
    unfold advanceIdx
    cases hfind : odoFind s 0 <;> simp
  | false =>
    unfold advanceIdx
    rw [if_pos hInv.2.1]
    simp

lemma offsets_get (c : Nat) (hc : c ≤ 28) :
    ∃ o, LAYOUT_MASK_SWAP_OFFSETS.get? c = some o ∧ c + o < 30 := by
  cases e : LAYOUT_MASK_SWAP_OFFSETS.get? c with
  | none =>
    have hl := List.get?_eq_none.mp e
    have : LAYOUT_MASK_SWAP_OFFSETS.length = 29 := by decide
    omega
  | some o =>
    refine ⟨o, rfl, ?_⟩
    have hall : ∀ x ∈ LAYOUT_MASK_SWAP_OFFSETS, x ≤ 1 := by decide
    have := hall o (List.get?_mem e)
    omega

lemma applySwaps_total :
    ∀ (n : Nat) (v : List Nat) (L : Layout), v.length ≤ n → v.length % 2 = 0 →
      (∀ i x, v.get? i = some x → x ≤ 28) → ∃ M, applySwaps L v = some M := by
  intro n
  induction n with
  | zero =>
    intro v L hlen _ _
    have : v = [] := List.eq_nil_of_length_eq_zero (by omega)
    subst this
    exact ⟨L, rfl⟩
  | succ n ih =>
    intro v L hlen hmod hb
    match v with
    | [] => exact ⟨L, rfl⟩
    | [a] => simp at hmod
    | a :: b :: rest =>
      obtain ⟨oa, hoa, hpa⟩ := offsets_get a (hb 0 a rfl)
      obtain ⟨ob, hob, hpb⟩ := offsets_get b (hb 1 b rfl)
      have hrest : ∀ i x, rest.get? i = some x → x ≤ 28 := fun i x hx =>
        hb (i + 2) x (by simpa using hx)
      obtain ⟨M, hM⟩ := ih rest (L.swapBoth ⟨a + oa, hpa⟩ ⟨b + ob, hpb⟩)
        (by simp at hlen ⊢; omega) (by simp at hmod ⊢; omega) hrest
      refine ⟨M, ?_⟩
      have hg : gridSwapChecked L a b =
          some (L.swapBoth ⟨a + oa, hpa⟩ ⟨b + ob, hpb⟩) := by
        unfold gridSwapChecked swapNatChecked
        simp only [hoa, hob]
        rw [dif_pos hpa, dif_pos hpb]
      show (match gridSwapChecked L a b with
        | none => none
        | some M => applySwaps M rest) = some M
      rw [hg]
      exact hM

lemma invSt_entries_le (s : List Nat) (h : InvSt s) :
    ∀ i x, s.get? i = some x → x ≤ 28 := by
  intro i x hx
  have := h.2.2.2 i x hx
  omega

lemma next_cases (st : LayoutPermutations) (h : InvSt st.swap_idx) :
    st.next = some none ∨
      ∃ M s2, st.next = some (some (M, ⟨st.orig_layout, s2, true⟩)) ∧ InvSt s2 := by
  unfold LayoutPermutations.next
  cases hadv : advanceIdx st.swap_idx st.started with
  | none => exact absurd hadv (advance_total _ _ h)
  | some o =>
    cases o with
    | none => exact Or.inl rfl
    | some s2 =>
      obtain ⟨hInv2, hlen2⟩ := advance_preserves _ _ _ h hadv
      obtain ⟨M, hM⟩ := applySwaps_total s2.length s2 st.orig_layout (le_refl _)
        hInv2.1 (invSt_entries_le s2 hInv2)
      refine Or.inr ⟨M, s2, ?_, hInv2⟩
      show (match applySwaps st.orig_layout s2 with
        | none => none
        | some M => some (some (M, LayoutPermutations.mk st.orig_layout s2 true))) = _
      rw [hM]

lemma runNext_isSome :
    ∀ (n : Nat) (st : LayoutPermutations), InvSt st.swap_idx →
      (runNext st n).isSome := by
  intro n
  induction n with
  | zero => intro st _; rfl
  | succ n ih =>
    intro st h
    show (match st.next with
      | none => none
      | some none => runNext st n
      | some (some (_, st2)) => runNext st2 n).isSome
    rcases next_cases st h with h1 | ⟨M, s2, h2, hInv2⟩
    · rw [h1]
      exact ih st h
    · rw [h2]
      exact ih _ hInv2

/- ===== Claim C10 ===== -/

/-- Claim C10: `next` is total only for positive depth.  At depth 0 the
very first call panics: the not-yet-started branch writes `swap_idx[0]`
into the empty index vector.  For `1 <= 2 * depth <= 29` no call to
`next` ever goes out of bounds: every swap-index-vector, offset-table and
grid access stays in range, however many times the iterator is stepped. -/
theorem c10_next_total_iff_positive_depth :
    (∀ L : Layout, (LayoutPermutations.new L 0).next = none) ∧
    (∀ (L : Layout) (d n : Nat), 1 ≤ 2 * d → 2 * d ≤ 29 →
      (runNext (LayoutPermutations.new L d) n).isSome) := by
  constructor
  · intro L
    rfl
  · intro L d n h1 h2
    apply runNext_isSome
    show InvSt (List.replicate (d * 2) 0)
    refine ⟨by simp [Nat.mul_mod_left], by simp; omega, by simp; omega, ?_⟩
    intro i x hx
    have hi : i < d * 2 := by
      by_contra hge
      rw [List.get?_eq_none.mpr (by simp; omega)] at hx
      cases hx
    have : x = 0 := by
      rw [List.get?_eq_getElem?] at hx
      rw [List.getElem?_replicate, if_pos hi] at hx
      cases hx
      rfl
    omega

/-- Witness for claim C10's theorem at depth 1 and three iterator steps. -/
theorem c10_next_total_iff_positive_depth_witness :
    (LayoutPermutations.new testL 0).next = none ∧
    (runNext (LayoutPermutations.new testL 1) 3).isSome :=
  ⟨c10_next_total_iff_positive_depth.1 testL,
    c10_next_total_iff_positive_depth.2 testL 1 3 (by decide) (by decide)⟩

/- ===== Claim C4 ===== -/

lemma swapBoth_lower_perm (L : Layout) (i j k : Fin 30) :
    (L.swapBoth i j).lower k = L.lower (Equiv.swap i j k) := by
  unfold Layout.swapBoth Layer.swap
  rw [Equiv.swap_apply_def]
  by_cases hki : k = i <;> by_cases hkj : k = j <;> by_cases hij : j = i <;>
    simp [hki, hkj, hij]

lemma swapBoth_upper_perm (L : Layout) (i j k : Fin 30) :
    (L.swapBoth i j).upper k = L.upper (Equiv.swap i j k) := by
  unfold Layout.swapBoth Layer.swap
  rw [Equiv.swap_apply_def]
  by_cases hki : k = i <;> by_cases hkj : k = j <;> by_cases hij : j = i <;>
    simp [hki, hkj, hij]

lemma foldl_shuffle_none (rest : List (Nat × Nat)) :
    rest.foldl (fun o r => o.bind (fun M => shuffleStep M r)) none = none := by
  induction rest with
  | nil => rfl
  | cons r2 rest2 ih => simpa using ih

lemma shuffleStep_inv (L : Layout) (r : Nat × Nat) (L1 : Layout)
    (h : shuffleStep L r = some L1) :
    ∃ p q : Fin 30, L1 = L.swapBoth p q := by
  unfold shuffleStep swapNatChecked at h
  split at h
  · split at h
    · cases h
      exact ⟨_, _, rfl⟩
    · cases h
  · cases h

lemma shuffle_perm :
    ∀ (draws : List (Nat × Nat)) (L L' : Layout),
      Layout.shuffle L draws = some L' →
      ∃ σ : Equiv.Perm (Fin 30),
        (∀ k, L'.lower k = L.lower (σ k)) ∧ (∀ k, L'.upper k = L.upper (σ k)) := by
  intro draws
  induction draws with
  | nil =>
    intro L L' h
    cases h
    exact ⟨Equiv.refl _, fun k => rfl, fun k => rfl⟩
  | cons r rest ih =>
    intro L L' h
    unfold Layout.shuffle at h
    rw [List.foldl_cons] at h
    cases hs : shuffleStep L r with
    | none =>
      rw [show (some L).bind (fun M => shuffleStep M r) = none by simp [hs]] at h
      rw [foldl_shuffle_none rest] at h
      cases h
    | some L1 =>
      rw [show (some L).bind (fun M => shuffleStep M r) = some L1 by simp [hs]] at h
      obtain ⟨σ1, h1l, h1u⟩ := ih L1 L' h
      obtain ⟨p, q, rfl⟩ := shuffleStep_inv L r L1 hs
      refine ⟨σ1.trans (Equiv.swap p q), fun k => ?_, fun k => ?_⟩
      · rw [h1l k, swapBoth_lower_perm]
        rfl
      · rw [h1u k, swapBoth_upper_perm]
        rfl

lemma applySwaps_perm :
    ∀ (n : Nat) (v : List Nat) (L M : Layout), v.length ≤ n →
      applySwaps L v = some M →
      ∃ σ : Equiv.Perm (Fin 30),
        (∀ k, M.lower k = L.lower (σ k)) ∧ (∀ k, M.upper k = L.upper (σ k)) := by
  intro n
  induction n with
  | zero =>
    intro v L M hlen h
    have : v = [] := List.eq_nil_of_length_eq_zero (by omega)
    subst this
    cases h
    exact ⟨Equiv.refl _, fun k => rfl, fun k => rfl⟩
  | succ n ih =>
    intro v L M hlen h
    match v with
    | [] =>
      cases h
      exact ⟨Equiv.refl _, fun k => rfl, fun k => rfl⟩
    | [a] => cases h
    | a :: b :: rest =>
      have hh : (match gridSwapChecked L a b with
          | none => none
          | some M1 => applySwaps M1 rest) = some M := h
      cases hg : gridSwapChecked L a b with
      | none => rw [hg] at hh; cases hh
      | some L1 =>
        rw [hg] at hh
        obtain ⟨σ1, h1l, h1u⟩ := ih rest L1 M (by simp at hlen ⊢; omega) hh
        have hpq : ∃ p q : Fin 30, L1 = L.swapBoth p q := by
          unfold gridSwapChecked swapNatChecked at hg
          cases hoa : LAYOUT_MASK_SWAP_OFFSETS.get? a with
          | none => rw [hoa] at hg; cases hg
          | some oa =>
            cases hob : LAYOUT_MASK_SWAP_OFFSETS.get? b with
            | none => rw [hoa, hob] at hg; cases hg
            | some ob =>
              rw [hoa, hob] at hg
              simp only at hg
              split at hg
              · split at hg
                · cases hg
                  exact ⟨_, _, rfl⟩
                · cases hg
              · cases hg
        obtain ⟨p, q, rfl⟩ := hpq
        refine ⟨σ1.trans (Equiv.swap p q), fun k => ?_, fun k => ?_⟩
        · rw [h1l k, swapBoth_lower_perm]
          rfl
        · rw [h1u k, swapBoth_upper_perm]
          rfl

lemma next_emits_applySwaps (st : LayoutPermutations) (M : Layout)
    (st2 : LayoutPermutations) (h : st.next = some (some (M, st2))) :
    st2.orig_layout = st.orig_layout ∧
      ∃ s2, applySwaps st.orig_layout s2 = some M := by
  unfold LayoutPermutations.next at h
  cases hadv : advanceIdx st.swap_idx st.started with
  | none => rw [hadv] at h; cases h
  | some o =>
    cases o with
    | none => rw [hadv] at h; cases h
    | some s2 =>
      rw [hadv] at h
      have h2 : (match applySwaps st.orig_layout s2 with
          | none => none
          | some M0 => some (some (M0,
              LayoutPermutations.mk st.orig_layout s2 true))) =
          some (some (M, st2)) := h
      cases hap : applySwaps st.orig_layout s2 with
      | none => rw [hap] at h2; cases h2
      | some M0 =>
        rw [hap] at h2
        cases h2
        exact ⟨rfl, s2, hap⟩

lemma layoutTrace_mem_perm :
    ∀ (n : Nat) (st : LayoutPermutations) (M : Layout), M ∈ layoutTrace st n →
      ∃ σ : Equiv.Perm (Fin 30),
        (∀ k, M.lower k = st.orig_layout.lower (σ k)) ∧
        (∀ k, M.upper k = st.orig_layout.upper (σ k)) := by
  intro n
  induction n with
  | zero =>
    intro st M h
    simp [layoutTrace] at h
  | succ n ih =>
    intro st M h
    have hh : M ∈ (match st.next with
        | some (some (M0, st2)) => M0 :: layoutTrace st2 n
        | _ => []) := h
    cases hn : st.next with
    | none => rw [hn] at hh; simp at hh
    | some o =>
      cases o with
      | none => rw [hn] at hh; simp at hh
      | some p =>
        obtain ⟨M0, st2⟩ := p
        rw [hn] at hh
        obtain ⟨horig, s2, hap⟩ := next_emits_applySwaps st M0 st2 hn
        rcases List.mem_cons.mp hh with rfl | hmem
        · exact applySwaps_perm s2.length s2 st.orig_layout M (le_refl _) hap
        · obtain ⟨σ, hl, hu⟩ := ih st2 M hmem
          rw [horig] at hl hu
          exact ⟨σ, hl, hu⟩

/-- Claim C4: every swap performed by `shuffle` or by the permutation
enumerator exchanges the same pair of grid positions in both layers
simultaneously; hence after any sequence of these operations both layers
are the original ones composed with one common permutation of the 30
slots (slot `i` of the lower and upper layer still name the same
physical key). -/
theorem c4_cross_layer_consistency :
    (∀ (L : Layout) (r : Nat × Nat) (L1 : Layout), shuffleStep L r = some L1 →
      ∃ p q : Fin 30, L1.lower = Layer.swap L.lower p q ∧
        L1.upper = Layer.swap L.upper p q) ∧
    (∀ (L : Layout) (draws : List (Nat × Nat)) (L' : Layout),
      Layout.shuffle L draws = some L' →
      ∃ σ : Equiv.Perm (Fin 30),
        (∀ k, L'.lower k = L.lower (σ k)) ∧ (∀ k, L'.upper k = L.upper (σ k))) ∧
    (∀ (st : LayoutPermutations) (n : Nat) (M : Layout), M ∈ layoutTrace st n →
      ∃ σ : Equiv.Perm (Fin 30),
        (∀ k, M.lower k = st.orig_layout.lower (σ k)) ∧
        (∀ k, M.upper k = st.orig_layout.upper (σ k))) := by
  refine ⟨?_, fun L draws L2 h => shuffle_perm draws L L2 h,
    fun st n M h => layoutTrace_mem_perm n st M h⟩
  intro L r L1 h
  obtain ⟨p, q, rfl⟩ := shuffleStep_inv L r L1 h
  exact ⟨p, q, rfl, rfl⟩

/-- Witness for claim C4's theorem: a concrete shuffle step, an empty
shuffle, and the first enumerator emission, all from `testL`. -/
theorem c4_cross_layer_consistency_witness :
    (∃ p q : Fin 30,
      (testL.swapBoth 0 1).lower = Layer.swap testL.lower p q ∧
      (testL.swapBoth 0 1).upper = Layer.swap testL.upper p q) ∧
    (∃ σ : Equiv.Perm (Fin 30),
      (∀ k, testL.lower k = testL.lower (σ k)) ∧
      (∀ k, testL.upper k = testL.upper (σ k))) ∧
    (∃ σ : Equiv.Perm (Fin 30),
      (∀ k, (testL.swapBoth 1 0).lower k = testL.lower (σ k)) ∧
      (∀ k, (testL.swapBoth 1 0).upper k = testL.upper (σ k))) := by
  refine ⟨?_, ?_, ?_⟩
  · exact c4_cross_layer_consistency.1 testL (0, 0) (testL.swapBoth 0 1) rfl
  · exact c4_cross_layer_consistency.2.1 testL [] testL rfl
  · have hM : layoutTrace (LayoutPermutations.new testL 1) 1 =
        [testL.swapBoth 1 0] := rfl
    exact c4_cross_layer_consistency.2.2 (LayoutPermutations.new testL 1) 1
      (testL.swapBoth 1 0) (by rw [hM]; exact List.mem_singleton_self _)

/- ===== Claim C1: depth-1 enumeration ===== -/

lemma gridSwap_isSome_indep (L L2 : Layout) (a b : Nat) :
    (gridSwapChecked L a b).isSome = (gridSwapChecked L2 a b).isSome := by
  unfold gridSwapChecked swapNatChecked
  cases LAYOUT_MASK_SWAP_OFFSETS.get? a with
  | none => rfl
  | some oa =>
    cases LAYOUT_MASK_SWAP_OFFSETS.get? b with
    | none => rfl
    | some ob =>
      show (if hi : a + oa < 30 then
          if hj : b + ob < 30 then
            some (L.swapBoth ⟨a + oa, hi⟩ ⟨b + ob, hj⟩) else none
          else none).isSome =
        (if hi : a + oa < 30 then
          if hj : b + ob < 30 then
            some (L2.swapBoth ⟨a + oa, hi⟩ ⟨b + ob, hj⟩) else none
          else none).isSome
      by_cases hi : a + oa < 30
      · by_cases hj : b + ob < 30
        · rw [dif_pos hi, dif_pos hj, dif_pos hi, dif_pos hj]
          rfl
        · rw [dif_pos hi, dif_neg hj, dif_pos hi, dif_neg hj]
      · rw [dif_neg hi, dif_neg hi]

lemma applySwaps_isSome_indep :
    ∀ (n : Nat) (v : List Nat) (L L2 : Layout), v.length ≤ n →
      (applySwaps L v).isSome = (applySwaps L2 v).isSome := by
  intro n
  induction n with
  | zero =>
    intro v L L2 hlen
    have : v = [] := List.eq_nil_of_length_eq_zero (by omega)
    subst this
    rfl
  | succ n ih =>
    intro v L L2 hlen
    match v with
    | [] => rfl
    | [a] => rfl
    | a :: b :: rest =>
      show (match gridSwapChecked L a b with
          | none => none
          | some M => applySwaps M rest).isSome =
        (match gridSwapChecked L2 a b with
          | none => none
          | some M => applySwaps M rest).isSome
      have hsome := gridSwap_isSome_indep L L2 a b
      cases hg : gridSwapChecked L a b with
      | none =>
        cases hg2 : gridSwapChecked L2 a b with
        | none => rfl
        | some M2 => rw [hg, hg2] at hsome; cases hsome
      | some M =>
        cases hg2 : gridSwapChecked L2 a b with
        | none => rw [hg, hg2] at hsome; cases hsome
        | some M2 => exact ih rest M M2 (by simp at hlen ⊢; omega)

/-- The layout emitted for an index vector (total wrapper around
`applySwaps`; meaningful whenever `applySwaps` succeeds). -/
def emitL (L : Layout) (v : List Nat) : Layout :=
  (applySwaps L v).getD L

lemma vecTrace_stop (s : List Nat) (b : Bool)
    (h : advanceIdx s b = some none) : ∀ n, vecTrace s b n = [] := by
  intro n
  cases n with
  | zero => rfl
  | succ n =>
    show (match advanceIdx s b with
      | some (some s2) => s2 :: vecTrace s2 true n
      | _ => []) = []
    rw [h]

lemma trace_run_master (L : Layout) :
    ∀ (n : Nat) (s : List Nat) (b : Bool) (p : List Nat × Bool),
      pureRun s b n = some p →
      ((vecTrace s b n).all fun v => (applySwaps testL v).isSome) = true →
      layoutTrace ⟨L, s, b⟩ n = (vecTrace s b n).map (fun v => emitL L v) ∧
      runNext (⟨L, s, b⟩ : LayoutPermutations) n = some ⟨L, p.1, p.2⟩ := by
  intro n
  induction n with
  | zero =>
    intro s b p hpure _
    cases hpure
    exact ⟨rfl, rfl⟩
  | succ n ih =>
    intro s b p hpure hall
    have hpure2 : (match advanceIdx s b with
        | none => none
        | some none => pureRun s b n
        | some (some s2) => pureRun s2 true n) = some p := hpure
    cases hadv : advanceIdx s b with
    | none => rw [hadv] at hpure2; cases hpure2
    | some o =>
      cases o with
      | none =>
        rw [hadv] at hpure2
        have hnext : LayoutPermutations.next ⟨L, s, b⟩ = some none := by
          unfold LayoutPermutations.next
          rw [hadv]
        have hvt : vecTrace s b (n + 1) = [] := vecTrace_stop s b hadv (n + 1)
        have hvtn : vecTrace s b n = [] := vecTrace_stop s b hadv n
        obtain ⟨ih1, ih2⟩ := ih s b p hpure2 (by rw [hvtn]; rfl)
        constructor
        · show (match LayoutPermutations.next ⟨L, s, b⟩ with
            | some (some (M, st2)) => M :: layoutTrace st2 n
            | _ => []) = _
          rw [hnext, hvt]
          rfl
        · show (match LayoutPermutations.next ⟨L, s, b⟩ with
            | none => none
            | some none => runNext ⟨L, s, b⟩ n
            | some (some (_, st2)) => runNext st2 n) = _
          rw [hnext]
          exact ih2
      | some s2 =>
        rw [hadv] at hpure2
        have hvt : vecTrace s b (n + 1) = s2 :: vecTrace s2 true n := by
          show (match advanceIdx s b with
            | some (some s2) => s2 :: vecTrace s2 true n
            | _ => []) = _
          rw [hadv]
        rw [hvt] at hall
        rw [List.all_cons, Bool.and_eq_true] at hall
        obtain ⟨hhead, htail⟩ := hall
        have hLsome : (applySwaps L s2).isSome = true := by
          rw [applySwaps_isSome_indep s2.length s2 L testL (le_refl _)]
          exact hhead
        obtain ⟨M, hM⟩ := Option.isSome_iff_exists.mp hLsome
        have hnext : LayoutPermutations.next ⟨L, s, b⟩ =
            some (some (M, ⟨L, s2, true⟩)) := by
          unfold LayoutPermutations.next
          rw [hadv]
          show (match applySwaps L s2 with
            | none => none
            | some M => some (some (M, LayoutPermutations.mk L s2 true))) = _
          rw [hM]
        obtain ⟨ih1, ih2⟩ := ih s2 true p hpure2 htail
        constructor
        · show (match LayoutPermutations.next ⟨L, s, b⟩ with
            | some (some (M, st2)) => M :: layoutTrace st2 n
            | _ => []) = _
          rw [hnext, hvt]
          show M :: layoutTrace ⟨L, s2, true⟩ n = emitL L s2 :: _
          rw [ih1]
          have : emitL L s2 = M := by
            unfold emitL
            rw [hM]
            rfl
          rw [this]
        · show (match LayoutPermutations.next ⟨L, s, b⟩ with
            | none => none
            | some none => runNext ⟨L, s, b⟩ n
            | some (some (_, st2)) => runNext st2 n) = _
          rw [hnext]
          exact ih2

/-- The compact-to-grid index map `c + LAYOUT_MASK_SWAP_OFFSETS[c]`. -/
def gridOf (c : Nat) : Nat := c + LAYOUT_MASK_SWAP_OFFSETS.getD c 0

lemma gridOf_lt30 : ∀ a : Fin 29, gridOf a.val < 30 := by decide

lemma gridOf_mono : ∀ a b : Fin 29, b.val < a.val → gridOf b.val < gridOf a.val := by
  decide

lemma gridOf_ne10 : ∀ a : Fin 29, gridOf a.val ≠ 10 := by decide

lemma offsets_get?_eq : ∀ a : Fin 29,
    LAYOUT_MASK_SWAP_OFFSETS.get? a.val =
      some (LAYOUT_MASK_SWAP_OFFSETS.getD a.val 0) := by decide

lemma applySwaps_pair (L : Layout) (x y : Nat) (hx : x < 29) (hy : y < 29) :
    applySwaps L [x, y] =
      some (L.swapBoth ⟨gridOf x, gridOf_lt30 ⟨x, hx⟩⟩
        ⟨gridOf y, gridOf_lt30 ⟨y, hy⟩⟩) := by
  show (match gridSwapChecked L x y with
    | none => none
    | some M => applySwaps M []) = _
  have hg : gridSwapChecked L x y =
      some (L.swapBoth ⟨gridOf x, gridOf_lt30 ⟨x, hx⟩⟩
        ⟨gridOf y, gridOf_lt30 ⟨y, hy⟩⟩) := by
    unfold gridSwapChecked swapNatChecked
    rw [offsets_get?_eq ⟨x, hx⟩, offsets_get?_eq ⟨y, hy⟩]
    simp only
    rw [dif_pos (show x + LAYOUT_MASK_SWAP_OFFSETS.getD x 0 < 30 from
          gridOf_lt30 ⟨x, hx⟩),
        dif_pos (show y + LAYOUT_MASK_SWAP_OFFSETS.getD y 0 < 30 from
          gridOf_lt30 ⟨y, hy⟩)]
    rfl
  rw [hg]
  rfl

lemma emitL_pair (L : Layout) (x y : Nat) (hx : x < 29) (hy : y < 29) :
    emitL L [x, y] =
      L.swapBoth ⟨gridOf x, gridOf_lt30 ⟨x, hx⟩⟩ ⟨gridOf y, gridOf_lt30 ⟨y, hy⟩⟩ := by
  unfold emitL
  rw [applySwaps_pair L x y hx hy]
  rfl

lemma layerSwap_inj (m : Fin 30 → Char) (hinj : ∀ a b : Fin 30, m a = m b → a = b)
    (p q p2 q2 : Fin 30) (hpq : p ≠ q) (hp2q2 : p2 ≠ q2)
    (h : Layer.swap m p q = Layer.swap m p2 q2) :
    (p = p2 ∧ q = q2) ∨ (p = q2 ∧ q = p2) := by
  have hp := congrFun h p
  have hq := congrFun h q
  unfold Layer.swap at hp hq
  rw [if_pos rfl] at hp
  rw [if_neg (fun hqp => hpq hqp.symm), if_pos rfl] at hq
  by_cases hpp2 : p = p2
  · left
    refine ⟨hpp2, ?_⟩
    rw [if_pos hpp2] at hp
    exact hinj q q2 hp
  · right
    rw [if_neg hpp2] at hp
    by_cases hpq2 : p = q2
    · refine ⟨hpq2, ?_⟩
      rw [if_pos hpq2] at hp
      have hqp2 : q = p2 := hinj q p2 hp
      exact hqp2
    · rw [if_neg hpq2] at hp
      exact absurd (hinj q p hp).symm hpq

lemma gridOf_lt30N (x : Nat) (hx : x < 29) : gridOf x < 30 := gridOf_lt30 ⟨x, hx⟩

lemma gridOf_monoN (x y : Nat) (hx : x < 29) (hxy : y < x) :
    gridOf y < gridOf x := gridOf_mono ⟨x, hx⟩ ⟨y, by omega⟩ hxy

lemma gridOf_ne10N (x : Nat) (hx : x < 29) : gridOf x ≠ 10 := gridOf_ne10 ⟨x, hx⟩

lemma pureRun_depth1_stop :
    pureRun (List.replicate 2 0) false 407 = some ([28, 27], true) := by decide

lemma applySwaps_all_lexPairs :
    (lexPairs.all fun v => (applySwaps testL v).isSome) = true := by decide

lemma advance_final : advanceIdx [28, 27] true = some none := by decide

/-- Claim C1 (amended): for every layout whose lower-layer characters are
pairwise distinct, the depth-1 enumerator yields exactly `C(29, 2) = 406`
distinct layouts and then `None`; each yielded layout is the original
with exactly one pair of distinct swap-eligible grid positions (both
valid, neither the pinned slot 10) exchanged in both layers.  (For depth
`d >= 2` the iterator also emits layouts reached by fewer than `d` swaps
— its first emission applies a single swap plus an identity swap of slot
0 with itself — so the frozen count `C(29, 2d)` and the
exactly-`d`-disjoint-swaps property fail; see the counterexample.) -/
theorem c1_depth1_neighborhood (L : Layout)
    (hinj : ∀ a b : Fin 30, L.lower a = L.lower b → a = b) :
    (layoutTrace (LayoutPermutations.new L 1) 406).length = Nat.choose 29 2 ∧
    (layoutTrace (LayoutPermutations.new L 1) 406).Nodup ∧
    (∀ M ∈ layoutTrace (LayoutPermutations.new L 1) 406,
      ∃ p q : Fin 30, p ≠ q ∧ p.val ≠ 10 ∧ q.val ≠ 10 ∧ M = L.swapBoth p q) ∧
    layoutTrace (LayoutPermutations.new L 1) 407 =
      layoutTrace (LayoutPermutations.new L 1) 406 ∧
    (∃ st : LayoutPermutations,
      runNext (LayoutPermutations.new L 1) 406 = some st ∧ st.next = some none) := by
  have hnew : LayoutPermutations.new L 1 = ⟨L, List.replicate 2 0, false⟩ := rfl
  have hall406 : ((vecTrace (List.replicate 2 0) false 406).all
      fun v => (applySwaps testL v).isSome) = true := by
    rw [vecTrace_depth1]
    exact applySwaps_all_lexPairs
  have hall407 : ((vecTrace (List.replicate 2 0) false 407).all
      fun v => (applySwaps testL v).isSome) = true := by
    rw [vecTrace_depth1_stop]
    exact applySwaps_all_lexPairs
  obtain ⟨htr406, hrun⟩ := trace_run_master L 406 (List.replicate 2 0) false
    ([28, 27], true) pureRun_depth1 hall406
  obtain ⟨htr407, -⟩ := trace_run_master L 407 (List.replicate 2 0) false
    ([28, 27], true) pureRun_depth1_stop hall407
  rw [vecTrace_depth1] at htr406
  rw [vecTrace_depth1_stop] at htr407
  rw [hnew]
  refine ⟨?_, ?_, ?_, ?_, ?_⟩
  · rw [htr406, List.length_map]
    have h1 : lexPairs.length = 406 := by decide
    rw [h1]
    decide
  · rw [htr406]
    apply List.Nodup.map_on ?_ lexPairs_nodup
    intro u hu v hv heq
    obtain ⟨x1, y1, rfl, hyx1, hx1⟩ := (lexPairs_mem_iff u).mp hu
    obtain ⟨x2, y2, rfl, hyx2, hx2⟩ := (lexPairs_mem_iff v).mp hv
    rw [emitL_pair L x1 y1 hx1 (by omega), emitL_pair L x2 y2 hx2 (by omega)] at heq
    have hlow := congrArg Layout.lower heq
    have hone : (⟨gridOf x1, gridOf_lt30 ⟨x1, hx1⟩⟩ : Fin 30) ≠
        ⟨gridOf y1, gridOf_lt30 ⟨y1, by omega⟩⟩ := by
      intro hc
      have hv := congrArg Fin.val hc
      have hm := gridOf_monoN x1 y1 hx1 hyx1
      simp at hv
      omega
    have htwo : (⟨gridOf x2, gridOf_lt30 ⟨x2, hx2⟩⟩ : Fin 30) ≠
        ⟨gridOf y2, gridOf_lt30 ⟨y2, by omega⟩⟩ := by
      intro hc
      have hv := congrArg Fin.val hc
      have hm := gridOf_monoN x2 y2 hx2 hyx2
      simp at hv
      omega
    rcases layerSwap_inj L.lower hinj _ _ _ _ hone htwo hlow with ⟨h1, h2⟩ | ⟨h1, h2⟩
    · have hx : gridOf x1 = gridOf x2 := congrArg Fin.val h1
      have hy : gridOf y1 = gridOf y2 := congrArg Fin.val h2
      have hxx : x1 = x2 := by
        by_contra hne
        rcases Nat.lt_or_ge x1 x2 with hlt | hge
        · have := gridOf_monoN x2 x1 hx2 hlt
          omega
        · have := gridOf_monoN x1 x2 hx1 (by omega)
          omega
      have hyy : y1 = y2 := by
        by_contra hne
        rcases Nat.lt_or_ge y1 y2 with hlt | hge
        · have := gridOf_monoN y2 y1 (by omega) hlt
          omega
        · have := gridOf_monoN y1 y2 (by omega) (by omega)
          omega
      rw [hxx, hyy]
    · have e1 : gridOf x1 = gridOf y2 := congrArg Fin.val h1
      have e2 : gridOf y1 = gridOf x2 := congrArg Fin.val h2
      have m1 := gridOf_monoN x1 y1 hx1 hyx1
      have m2 := gridOf_monoN x2 y2 hx2 hyx2
      omega
  · intro M hM
    rw [htr406] at hM
    obtain ⟨v, hv, rfl⟩ := List.mem_map.mp hM
    obtain ⟨x, y, rfl, hyx, hx⟩ := (lexPairs_mem_iff v).mp hv
    rw [emitL_pair L x y hx (by omega)]
    refine ⟨_, _, ?_, ?_, ?_, rfl⟩
    · intro hc
      have hv2 := congrArg Fin.val hc
      have hm := gridOf_monoN x y hx hyx
      simp at hv2
      omega
    · exact gridOf_ne10N x hx
    · exact gridOf_ne10N y (by omega)
  · rw [htr407, htr406]
  · refine ⟨⟨L, [28, 27], true⟩, hrun, ?_⟩
    show LayoutPermutations.next ⟨L, [28, 27], true⟩ = some none
    unfold LayoutPermutations.next
    rw [advance_final]

/-- Witness for claim C1's theorem at the concrete layout `testL`. -/
theorem c1_depth1_neighborhood_witness :
    (layoutTrace (LayoutPermutations.new testL 1) 406).length = Nat.choose 29 2 ∧
    (layoutTrace (LayoutPermutations.new testL 1) 406).Nodup ∧
    (∀ M ∈ layoutTrace (LayoutPermutations.new testL 1) 406,
      ∃ p q : Fin 30, p ≠ q ∧ p.val ≠ 10 ∧ q.val ≠ 10 ∧ M = testL.swapBoth p q) ∧
    layoutTrace (LayoutPermutations.new testL 1) 407 =
      layoutTrace (LayoutPermutations.new testL 1) 406 ∧
    (∃ st : LayoutPermutations,
      runNext (LayoutPermutations.new testL 1) 406 = some st ∧
        st.next = some none) :=
  c1_depth1_neighborhood testL (by decide)

lemma double_swap_lower_values (L : Layout) (p q r t : Fin 30)
    (hpq : p ≠ q) (hpr : p ≠ r) (hpt : p ≠ t)
    (hqr : q ≠ r) (hqt : q ≠ t) (hrt : r ≠ t) :
    ((L.swapBoth p q).swapBoth r t).lower r = L.lower t ∧
    ((L.swapBoth p q).swapBoth r t).lower t = L.lower r ∧
    ((L.swapBoth p q).swapBoth r t).lower p = L.lower q ∧
    ((L.swapBoth p q).swapBoth r t).lower q = L.lower p := by
  refine ⟨?_, ?_, ?_, ?_⟩
  · show Layer.swap (Layer.swap L.lower p q) r t r = L.lower t
    unfold Layer.swap
    rw [if_pos rfl, if_neg (fun h => hpt h.symm), if_neg (fun h => hqt h.symm)]
  · show Layer.swap (Layer.swap L.lower p q) r t t = L.lower r
    unfold Layer.swap
    rw [if_neg (fun h => hrt h.symm), if_pos rfl,
      if_neg (fun h => hpr h.symm), if_neg (fun h => hqr h.symm)]
  · show Layer.swap (Layer.swap L.lower p q) r t p = L.lower q
    unfold Layer.swap
    rw [if_neg hpr, if_neg hpt, if_pos rfl]
  · show Layer.swap (Layer.swap L.lower p q) r t q = L.lower p
    unfold Layer.swap
    rw [if_neg hqr, if_neg hqt, if_neg (fun h => hpq h.symm), if_pos rfl]

/-- Counterexample to claim C1 as frozen: from the all-distinct layout
`testL` at depth 2, the first emitted layout is `testL` with slots 0 and 1
swapped followed by an identity swap of slot 0 with itself — it is not
the result of 2 disjoint pairwise swaps (no four pairwise distinct grid
positions realize it), so the `d` disjoint swaps / `2d` distinct indices
part of the claim fails at depth 2. -/
theorem c1_depth1_neighborhood_counterexample :
    (∀ a b : Fin 30, (testL.lower a = testL.lower b → a = b) ∧
      (testL.upper a = testL.upper b → a = b) ∧ testL.lower a ≠ testL.upper b) ∧
    layoutTrace (LayoutPermutations.new testL 2) 1 =
      [(testL.swapBoth 1 0).swapBoth 0 0] ∧
    ¬ ∃ p q r t : Fin 30, p ≠ q ∧ p ≠ r ∧ p ≠ t ∧ q ≠ r ∧ q ≠ t ∧ r ≠ t ∧
      (testL.swapBoth 1 0).swapBoth 0 0 = (testL.swapBoth p q).swapBoth r t := by
  refine ⟨by decide, rfl, ?_⟩
  rintro ⟨p, q, r, t, hpq, hpr, hpt, hqr, hqt, hrt, heq⟩
  have hinj : ∀ a b : Fin 30, testL.lower a = testL.lower b → a = b := by decide
  obtain ⟨h1, h2, h3, h4⟩ :=
    double_swap_lower_values testL p q r t hpq hpr hpt hqr hqt hrt
  have hM01 : ∀ i : Fin 30, i.val ≠ 0 → i.val ≠ 1 →
      ((testL.swapBoth 1 0).swapBoth 0 0).lower i = testL.lower i := by decide
  have hr : r.val = 0 ∨ r.val = 1 := by
    by_contra hc
    push_neg at hc
    have hfix := hM01 r hc.1 hc.2
    rw [heq, h1] at hfix
    exact hrt ((hinj t r hfix).symm)
  have ht : t.val = 0 ∨ t.val = 1 := by
    by_contra hc
    push_neg at hc
    have hfix := hM01 t hc.1 hc.2
    rw [heq, h2] at hfix
    exact hrt (hinj r t hfix)
  have hp : p.val = 0 ∨ p.val = 1 := by
    by_contra hc
    push_neg at hc
    have hfix := hM01 p hc.1 hc.2
    rw [heq, h3] at hfix
    exact hpq ((hinj q p hfix).symm)
  have hq : q.val = 0 ∨ q.val = 1 := by
    by_contra hc
    push_neg at hc
    have hfix := hM01 q hc.1 hc.2
    rw [heq, h4] at hfix
    exact hpq (hinj p q hfix)
  have v1 : p.val ≠ q.val := fun h => hpq (Fin.ext h)
  have v2 : p.val ≠ r.val := fun h => hpr (Fin.ext h)
  have v3 : p.val ≠ t.val := fun h => hpt (Fin.ext h)
  have v4 : q.val ≠ r.val := fun h => hqr (Fin.ext h)
  have v5 : q.val ≠ t.val := fun h => hqt (Fin.ext h)
  have v6 : r.val ≠ t.val := fun h => hrt (Fin.ext h)
  omega
